import Mathlib

/-!
Verification of the fh5dl asset-acquisition and assembly pipeline.

This file gives a shallow embedding of the Go sources
(`internal/book/book.go`, `cmd/main.go`) and proves the spec claims
against it.  Pure string manipulation is modelled over `List Char`
(with `String` wrappers) so that every definition evaluates inside the
kernel; external effects (HTTP fetches, the browser renderer, file
writes) are modelled as explicit oracles threaded through the
definitions, with instrumented traces recording requests, sleeps and
on-disk state.
-/

namespace Fh5dl

/-! ## String helpers (modelling Go's `strings` package) -/

/-- Go `strings.Replace(s, pat, rep, 1)` on character lists: replace the
first occurrence of `pat` (if any). -/
def replaceFirstCh (pat rep : List Char) : List Char → List Char
  | [] => []
  | c :: cs =>
    if pat.isPrefixOf (c :: cs) then rep ++ (c :: cs).drop pat.length
    else c :: replaceFirstCh pat rep cs

/-- Go `strings.Contains` on character lists. -/
def containsCh (pat : List Char) : List Char → Bool
  | [] => pat.isEmpty
  | c :: cs => pat.isPrefixOf (c :: cs) || containsCh pat cs

/-- Go `strings.Replace(s, pat, rep, 1)`. -/
def replaceOnce (s pat rep : String) : String :=
  (replaceFirstCh pat.toList rep.toList s.toList).asString

/-- Go `strings.Contains(s, pat)`. -/
def containsStr (s pat : String) : Bool := containsCh pat.toList s.toList

/-- Go `strings.HasPrefix(s, p)`. -/
def hasPre (s p : String) : Bool := p.toList.isPrefixOf s.toList

/-- Go `strings.HasSuffix(s, p)`. -/
def hasSuf (s p : String) : Bool := p.toList.isSuffixOf s.toList

/-- Go `strings.TrimPrefix(s, p)`: drop `p` from the front when it is a
prefix, otherwise return `s` unchanged. -/
def trimPre (s p : String) : String :=
  if hasPre s p then (s.toList.drop p.toList.length).asString else s

/-- Go `strings.TrimSuffix(s, p)`. -/
def trimSuf (s p : String) : String :=
  if hasSuf s p then (s.toList.take (s.toList.length - p.toList.length)).asString else s

/-- Go `strings.Trim(s, "/")`: drop leading and trailing `/` characters. -/
def trimSlashes (s : String) : String :=
  (((s.toList.dropWhile (· == '/')).reverse.dropWhile (· == '/')).reverse).asString

/-! ## Data model (`internal/book/book.go`) -/

/-- `book.Page`. -/
structure Page where
  number : Nat
  thumbnailUrl : String
  imageUrls : List String
deriving DecidableEq

/-- `book.Book`. -/
structure Book where
  url : String
  id : String
  title : String
  pages : List Page
deriving DecidableEq

/-- `book.PageImage` (an image descriptor). -/
structure PageImage where
  pageNumber : Nat
  imageNumber : Nat
  overallOrder : Nat
  url : String
deriving DecidableEq

/-- `book.DownloadedImage`. -/
structure DownloadedImage where
  pageNumber : Nat
  imageNumber : Nat
  overallOrder : Nat
  url : String
  fullPath : String
deriving DecidableEq

/-- `book.InteractivePageImage`. -/
structure InteractivePageImage where
  pageNumber : Nat
  overallOrder : Nat
  url : String
  fullPath : String
deriving DecidableEq

/-! ## Manifest image normalization (`book.Get`, book.go lines 783-817) -/

/-- One entry of the manifest's polymorphic `n` (images) field: the Go
code decodes it as `interface{}`; list entries that are not strings are
skipped. -/
inductive JsonVal
  | str (s : String)
  | nonString
deriving DecidableEq

/-- The manifest page's image field: a JSON string, a JSON array, or
anything else (which yields no images in the Go `switch`). -/
inductive ImagesField
  | one (s : String)
  | arr (l : List JsonVal)
  | otherShape
deriving DecidableEq

/-- Normalization of one raw image filename to an absolute URL
(book.go lines 792-798 and 802-809, identical in both branches). -/
def normalizeImage (id : String) (img : String) : String :=
  let trimmed := trimPre img "./"
  if hasPre trimmed "files/" then
    "https://online.fliphtml5.com/" ++ id ++ "/" ++ trimmed
  else
    "https://online.fliphtml5.com/" ++ id ++ "/files/large/" ++ trimmed

/-- The `switch` over the images field in `book.Get` (lines 787-810). -/
def normalizeImages (id : String) : ImagesField → List String
  | .one s => [normalizeImage id s]
  | .arr l => l.filterMap fun v =>
      match v with
      | .str s => some (normalizeImage id s)
      | .nonString => none
  | .otherShape => []

/-! ## Identifier resolution (`book.ParseId`, book.go lines 721-739) -/

/-- Go regexp `\w`: ASCII word characters. -/
def isWordChar (c : Char) : Bool := c.isAlphanum || c == '_'

/-- `idRegex.FindStringSubmatch` for the pattern `^(\w+\/\w+)\/?`:
greedy word-run, a slash, greedy word-run; the optional trailing slash
does not affect the captured group.  Returns the capture group. -/
def regexMatchId (s : String) : Option String :=
  let (w1, r1) := s.toList.span isWordChar
  if w1.isEmpty then none
  else
    match r1 with
    | '/' :: r2 =>
      let w2 := r2.takeWhile isWordChar
      if w2.isEmpty then none
      else some ((w1 ++ '/' :: w2).asString)
    | _ => none

/-- The host and path of a parsed URL.  Go's `net/url.Parse` is standard
library code outside this repository; it is modelled as an oracle
`String → Option UrlParts` (`none` meaning `err != nil`). -/
structure UrlParts where
  host : String
  path : String
deriving DecidableEq

/-- `book.ParseId`: first try the id pattern on the raw input, then
parse as a URL and, when the host is non-empty, try the pattern on the
slash-trimmed path. -/
def ParseId (urlParse : String → Option UrlParts) (idOrUrl : String) : Option String :=
  match regexMatchId idOrUrl with
  | some id => some id
  | none =>
    match urlParse idOrUrl with
    | some u => if u.host ≠ "" then regexMatchId (trimSlashes u.path) else none
    | none => none

/-- The claim's reading of "a raw identifier matching the two-word-segment
pattern": the whole input is `\w+/\w+`, allowing the optional trailing
slash of the pattern.  (Modelled from the claim's words, for comparison
with the prefix-matching code.) -/
def isTwoSegmentId (s : String) : Bool :=
  match regexMatchId s with
  | some id => s == id || s == id ++ "/"
  | none => false

/-- Declarative characterization of a successful prefix match of
`^(\w+\/\w+)\/?`: the input starts with two maximal non-empty word runs
separated by a slash, and the id is that prefix. -/
def IsIdPrefix (s : String) (id : String) : Prop :=
  ∃ w1 w2 rest, s.toList = w1 ++ '/' :: (w2 ++ rest) ∧
    w1 ≠ [] ∧ w2 ≠ [] ∧
    (∀ c ∈ w1, isWordChar c) ∧ (∀ c ∈ w2, isWordChar c) ∧
    (rest = [] ∨ ∃ c cs, rest = c :: cs ∧ ¬ isWordChar c) ∧
    id = (w1 ++ '/' :: w2).asString

/-! ## Flattening (`Book.FindAllImages`, book.go lines 827-845) -/

/-- Inner loop over one page's image URLs, threading the global order
counter. -/
def pageImagesAux (pageNum : Nat) : Nat → Nat → List String → List PageImage
  | _, _, [] => []
  | imgNum, order, u :: us =>
    ⟨pageNum, imgNum, order, u⟩ :: pageImagesAux pageNum (imgNum + 1) (order + 1) us

/-- Outer loop over pages; `PageNumber` is the 1-based loop index. -/
def findAllImagesAux : Nat → Nat → List Page → List PageImage
  | _, _, [] => []
  | pageIdx, order, p :: rest =>
    pageImagesAux pageIdx 1 order p.imageUrls ++
      findAllImagesAux (pageIdx + 1) (order + p.imageUrls.length) rest

/-- `Book.FindAllImages`. -/
def FindAllImages (b : Book) : List PageImage :=
  findAllImagesAux 1 1 b.pages

/-! ## The 1000-image cap (`downloadPdf2`, main.go lines 558-563) -/

/-- The truncation applied before the download phase. -/
def capImages (images : List PageImage) : List PageImage :=
  if images.length > 1000 then images.take 1000 else images

/-- Whether the truncation warning is printed. -/
def capImagesWarns (images : List PageImage) : Bool :=
  images.length > 1000

/-! ## Interactive capture (`captureInteractivePages`, main.go lines 193-496) -/

/-- The per-page screenshot path `interactive-{n}.png` under the
interactive output root (`filepath.Join`). -/
def capturePath (root : String) (n : Nat) : String :=
  root ++ "/interactive-" ++ toString n ++ ".png"

/-- The per-page viewer deep link `{bookUrl}#p={n}`. -/
def captureUrl (base : String) (n : Nat) : String :=
  base ++ "#p=" ++ toString n

/-- The records appended for one available capture of page `n`
(either an existing file, main.go lines 300-324, or a successful
render, lines 346-368, or a retry success, lines 451-471 — all three
sites append the same records): the record for `n` itself and, when
`n > 1 && n % 2 == 0 && n < len(b.Pages)`, an extra record for the odd
successor `n+1` aliasing the same file path. -/
def captureRecords (base root : String) (pageCount : Nat) (n : Nat) :
    List InteractivePageImage :=
  let first : List InteractivePageImage :=
    [⟨n, n, captureUrl base n, capturePath root n⟩]
  if n > 1 ∧ n % 2 = 0 ∧ n < pageCount then
    first ++ [⟨n + 1, n + 1, captureUrl base (n + 1), capturePath root n⟩]
  else first

/-- The page-selection loop (main.go lines 239-244): page 1 and then
every even page up to the page count. -/
def pagesToCapture (pageCount : Nat) : List Nat :=
  1 :: List.range' 2 (pageCount / 2) 2

/-- Oracle for the external browser renders: `ok p` tells whether the
primary pass obtains page `p`'s screenshot (the file already existing
or the render succeeding), `retryOk p` whether the serial retry pass
does. -/
structure CapEnv where
  ok : Nat → Bool
  retryOk : Nat → Bool

/-- Assets accumulated by the primary (batched) pass, in page order;
the Go code accumulates them in completion order under a mutex and
sorts at the end, so only the multiset matters. -/
def primaryCaptured (base root : String) (pageCount : Nat) (env : CapEnv) :
    List InteractivePageImage :=
  ((pagesToCapture pageCount).filter env.ok).flatMap (captureRecords base root pageCount)

/-- The pages recorded in `failedPages` by the primary pass. -/
def failedPrimary (pageCount : Nat) (env : CapEnv) : List Nat :=
  (pagesToCapture pageCount).filter fun p => !env.ok p

/-- Assets added by the serial retry pass; it runs only when at least
one but not all requested pages failed (main.go line 438). -/
def retryCaptured (base root : String) (pageCount : Nat) (env : CapEnv) :
    List InteractivePageImage :=
  let failed := failedPrimary pageCount env
  if 0 < failed.length ∧ failed.length < (pagesToCapture pageCount).length then
    (failed.filter env.retryOk).flatMap (captureRecords base root pageCount)
  else []

/-- Sorting by `OverallOrder` (`sort.Slice`, main.go lines 428-430 and
486-488). -/
def sortCaptured (l : List InteractivePageImage) : List InteractivePageImage :=
  List.insertionSort (fun a b => a.overallOrder ≤ b.overallOrder) l

/-- The observable outcome of the capture phase: the returned value
(`none` models the `failed to capture any pages` error) and the page
numbers surfaced in failure reports (the sorted `failedPages` warning,
line 424, plus the per-page `Still failed` retry messages, line 455). -/
structure CapOut where
  result : Option (List InteractivePageImage)
  reportedFailed : List Nat
deriving DecidableEq

/-- `captureInteractivePages`: batched primary pass, warning with the
failed pages, the empty-result error check (line 433), then the serial
retry pass and final sort. -/
def captureInteractivePages (base root : String) (pageCount : Nat) (env : CapEnv) :
    CapOut :=
  let prim := primaryCaptured base root pageCount env
  let failed := failedPrimary pageCount env
  if prim.isEmpty then ⟨none, failed⟩
  else if 0 < failed.length ∧ failed.length < (pagesToCapture pageCount).length then
    ⟨some (sortCaptured (prim ++ retryCaptured base root pageCount env)),
      failed ++ failed.filter fun p => !env.retryOk p⟩
  else
    ⟨some (sortCaptured prim), failed⟩

/-! ## Image download (`PageImage.Download`, book.go lines 847-998) -/

/-- Outcome of one HTTP GET: a transport error or a status code. -/
inductive FetchRes
  | transportError
  | status (code : Nat)
deriving DecidableEq

/-- Outcome of writing the response body to the target file:
`os.Create`, `io.Copy`, `bufio.Flush` or `file.Close` failing, or
success. -/
inductive WriteOutcome
  | createFail
  | copyFail
  | flushFail
  | closeFail
  | ok
deriving DecidableEq

/-- External-world oracle for one descriptor's download: HTTP responses
and file-write outcomes, indexed by the attempt number (the world may
change between attempts). -/
structure DlEnv where
  fetch : Nat → String → FetchRes
  write : Nat → WriteOutcome

/-- The alternate-URL candidates tried on a non-success status
(book.go lines 911-918): the `/files/large/` → `/files/` rewrite when
applicable, then the `.webp` → `.jpg` / `.png` rewrites. -/
def candidatesFor (url : String) : List String :=
  (if containsStr url "/files/large/" then
      [replaceOnce url "/files/large/" "/files/"] else [])
  ++ (if hasSuf url ".webp" then
      [trimSuf url ".webp" ++ ".jpg", trimSuf url ".webp" ++ ".png"] else [])

/-- The candidate loop (book.go lines 919-930): request each candidate
in order until one returns status 200; returns the requests issued and
the working candidate, if any. -/
def tryAlternates (f : String → FetchRes) : List String → List String × Option String
  | [] => ([], none)
  | c :: cs =>
    match f c with
    | .status 200 => ([c], some c)
    | _ =>
      let r := tryAlternates f cs
      (c :: r.1, r.2)

/-- What one attempt iteration of the retry loop decides. -/
inductive AttemptStep
  | success (finalUrl : String)
  | failure (nextUrl : String)
deriving DecidableEq

/-- Instrumented record of one attempt: its decision, the URLs
requested, whether `os.Create` produced the target file, whether
`os.Remove` was called on it after a write failure, and whether the
target file is on disk when the attempt ends. -/
structure AttemptOut where
  step : AttemptStep
  requests : List String
  fileCreated : Bool
  removedPartial : Bool
  filePresentAfter : Bool
deriving DecidableEq

/-- Whether the attempt failed. -/
def AttemptOut.isFailure (o : AttemptOut) : Bool :=
  match o.step with
  | .failure _ => true
  | .success _ => false

/-- The write phase after a 200 response (book.go lines 950-993): on
success the file stays, on `os.Create` failure nothing was written,
and on a copy/flush/close failure the partial file is removed
(lines 970, 976, 982). -/
def writePhase (env : DlEnv) (a : Nat) (finalUrl : String) (reqs : List String) :
    AttemptOut :=
  match env.write a with
  | .ok => ⟨.success finalUrl, reqs, true, false, true⟩
  | .createFail => ⟨.failure finalUrl, reqs, false, false, false⟩
  | _ => ⟨.failure finalUrl, reqs, true, true, false⟩

/-- One iteration of the retry loop (book.go lines 886-948): the main
request; on a non-success status the candidate loop, and when no
candidate works, the extra single `/files/large/` → `/files/` request
(lines 931-945) whose success swaps the URL for the next attempt but
still falls through to `continue`. -/
def runAttempt (env : DlEnv) (a : Nat) (url : String) : AttemptOut :=
  match env.fetch a url with
  | .transportError => ⟨.failure url, [url], false, false, false⟩
  | .status code =>
    if code = 200 then writePhase env a url [url]
    else
      let cr := tryAlternates (env.fetch a) (candidatesFor url)
      match cr.2 with
      | some alt => writePhase env a alt ([url] ++ cr.1)
      | none =>
        let altUrl := replaceOnce url "/files/large/" "/files/"
        let newUrl :=
          match env.fetch a altUrl with
          | .status 200 => altUrl
          | _ => url
        ⟨.failure newUrl, [url] ++ cr.1 ++ [altUrl], false, false, false⟩

/-- Instrumented result of `Download`: the returned asset (or `none`
for the terminal error after exhausting retries), the requests issued,
the backoff sleeps in seconds, the number of attempt iterations, the
per-attempt trace, and whether the target file exists at return. -/
structure DlOut where
  result : Option DownloadedImage
  requests : List String
  sleeps : List Nat
  attemptsUsed : Nat
  attemptsTrace : List AttemptOut
  filePresent : Bool
deriving DecidableEq

/-- The retry loop over the remaining attempt indices, with the
`2^attempt` second backoff before every attempt but the first
(book.go lines 879-884). -/
def dlLoop (env : DlEnv) (i : PageImage) (fullPath : String) :
    String → List Nat → DlOut
  | _, [] => ⟨none, [], [], 0, [], false⟩
  | url, a :: rest =>
    let sl := if a > 0 then [2 ^ a] else []
    let att := runAttempt env a url
    match att.step with
    | .success u =>
      ⟨some ⟨i.pageNumber, i.imageNumber, i.overallOrder, u, fullPath⟩,
        att.requests, sl, 1, [att], true⟩
    | .failure u =>
      let out := dlLoop env i fullPath u rest
      ⟨out.result, att.requests ++ out.requests, sl ++ out.sleeps,
        out.attemptsUsed + 1, att :: out.attemptsTrace, out.filePresent⟩

/-- The target path `{page}-{imageIndex}.jpg` under the image output
root. -/
def targetPath (folder : String) (i : PageImage) : String :=
  folder ++ "/" ++ toString i.pageNumber ++ "-" ++ toString i.imageNumber ++ ".jpg"

/-- `PageImage.Download`: the skip-if-exists check (book.go lines
851-860) synthesizing the asset from the descriptor, else the
3-attempt retry loop (`maxRetries := 3`). -/
def Download (env : DlEnv) (i : PageImage) (folder : String) (fileExists0 : Bool) :
    DlOut :=
  let fullPath := targetPath folder i
  if fileExists0 then
    ⟨some ⟨i.pageNumber, i.imageNumber, i.overallOrder, i.url, fullPath⟩,
      [], [], 0, [], true⟩
  else
    dlLoop env i fullPath i.url [0, 1, 2]

/-! ## The download phase (`downloadImages`, main.go lines 37-191) -/

/-- Observable outcome of the download phase: the returned assets
(`none` models the phase error), the requests issued, and the final
set of files on disk. -/
structure PhaseOut where
  result : Option (List DownloadedImage)
  requests : List String
  fs : List String
deriving DecidableEq

/-- The synthesized asset for an already-present target file
(main.go lines 117-127). -/
def synthAsset (folder : String) (i : PageImage) : DownloadedImage :=
  ⟨i.pageNumber, i.imageNumber, i.overallOrder, i.url, targetPath folder i⟩

/-- The per-item work of the phase, threading the file system: the
existence pre-check (main.go lines 117-136) skips the network and
synthesizes the asset; otherwise `Download` runs, any item error
aborting the whole phase (`errgroup` fail-fast, lines 139-141 and
169-171).  The Go code runs items concurrently in batches and sorts at
the end; the model processes them in order, which yields the same
sorted output and the same request multiset. -/
def downloadItems (env : DlEnv) (folder : String) :
    List String → List PageImage → PhaseOut
  | fs, [] => ⟨some [], [], fs⟩
  | fs, i :: rest =>
    let path := targetPath folder i
    if fs.contains path then
      let out := downloadItems env folder fs rest
      ⟨out.result.map fun l => synthAsset folder i :: l, out.requests, out.fs⟩
    else
      let d := Download env i folder false
      match d.result with
      | none => ⟨none, d.requests, fs⟩
      | some a =>
        let out := downloadItems env folder (path :: fs) rest
        ⟨out.result.map fun l => a :: l, d.requests ++ out.requests, out.fs⟩

/-- Sorting by `OverallOrder` (main.go lines 182-184). -/
def sortDownloaded (l : List DownloadedImage) : List DownloadedImage :=
  List.insertionSort (fun a b => a.overallOrder ≤ b.overallOrder) l

/-- `downloadImages`: process every item, then sort the results by
global sequence number. -/
def downloadImages (env : DlEnv) (folder : String) (images : List PageImage)
    (fs : List String) : PhaseOut :=
  let out := downloadItems env folder fs images
  ⟨out.result.map sortDownloaded, out.requests, out.fs⟩

/-! ## Assembly (`generateInteractivePDF`, main.go lines 627-669) -/

/-- One Go map insertion `m[k] = v`. -/
def goMapInsert (m : Nat → Option String) (k : Nat) (v : String) :
    Nat → Option String :=
  fun x => if x = k then some v else m x

/-- Folding a list of `(page, path)` pairs into the map. -/
def insertAll (m : Nat → Option String) (l : List (Nat × String)) :
    Nat → Option String :=
  l.foldl (fun m kv => goMapInsert m kv.1 kv.2) m

/-- The `(page, path)` pairs of the downloaded assets, in list order. -/
def downloadedPairs (d : List DownloadedImage) : List (Nat × String) :=
  d.map fun a => (a.pageNumber, a.fullPath)

/-- The `(page, path)` pairs of the captured assets, in list order. -/
def capturedPairs (c : List InteractivePageImage) : List (Nat × String) :=
  c.map fun a => (a.pageNumber, a.fullPath)

/-- The `pageMap` built by `generateInteractivePDF` (lines 637-647):
all downloaded assets inserted first, then overridden by the captured
assets. -/
def pageMapFun (d : List DownloadedImage) (c : List InteractivePageImage) :
    Nat → Option String :=
  insertAll (insertAll (fun _ => none) (downloadedPairs d)) (capturedPairs c)

/-- The key set of the `pageMap`.  Go iterates the map's keys in
unspecified order and sorts them (lines 650-654); the model takes the
first-occurrence deduplication of all inserted keys, which has the
same sorted arrangement. -/
def pageMapKeys (d : List DownloadedImage) (c : List InteractivePageImage) :
    List Nat :=
  (d.map (fun a => a.pageNumber) ++ c.map (fun a => a.pageNumber)).dedup

/-- The ordered image-path list handed to the PDF encoder
(lines 650-660). -/
def assembleImages (d : List DownloadedImage) (c : List InteractivePageImage) :
    List String :=
  (List.insertionSort (· ≤ ·) (pageMapKeys d c)).map fun p =>
    (pageMapFun d c p).getD ""

/-- The last `(page, path)` pair for page `p` in a pair list. -/
def lastPathFor (pairs : List (Nat × String)) (p : Nat) : Option String :=
  (pairs.reverse.find? fun kv => kv.1 == p).map fun kv => kv.2

/-- The content path the claim prescribes for page `p`: the (last)
captured asset's path when a capture for `p` exists, otherwise the last
downloaded entry's path.  (Modelled from the claim's words, for
comparison with `pageMapFun`.) -/
def selectPath (d : List DownloadedImage) (c : List InteractivePageImage) (p : Nat) :
    Option String :=
  match lastPathFor (capturedPairs c) p with
  | some s => some s
  | none => lastPathFor (downloadedPairs d) p

/-- The sorted page-number sequence underlying the assembled path
list. -/
def assemblePages (d : List DownloadedImage) (c : List InteractivePageImage) :
    List Nat :=
  List.insertionSort (· ≤ ·) (pageMapKeys d c)

/-! ## Auxiliary definitions for statements and witnesses -/

/-- Total number of images over a page list. -/
def totalImages (ps : List Page) : Nat :=
  (ps.map fun p => p.imageUrls.length).sum

/-- A downloaded asset without its reported source URL (every field
the skip-if-exists synthesis reproduces exactly). -/
def stripUrl (a : DownloadedImage) : Nat × Nat × Nat × String :=
  (a.pageNumber, a.imageNumber, a.overallOrder, a.fullPath)

/-- A book with 1001 one-image pages' worth of images on a single
page (witness object). -/
def bigBook : Book :=
  ⟨"u", "i", "t", [⟨1, "th", List.replicate 1001 "x"⟩]⟩

/-- Concrete `net/url.Parse` oracle for the resolution examples:
`https://host/abcde/fg123/extra` parses with host `host`; `not-an-id`
parses with an empty host (as Go's `url.Parse` does). -/
def urlParseW : String → Option UrlParts := fun s =>
  if s = "https://host/abcde/fg123/extra" then some ⟨"host", "/abcde/fg123/extra"⟩
  else if s = "not-an-id" then some ⟨"", "not-an-id"⟩
  else none

/-- Witness descriptor whose URL admits both alternate rewrites. -/
def imgAlt : PageImage := ⟨1, 1, 1, "h/files/large/a.webp"⟩

/-- Witness environment: the original URL answers 404, the
`/files/` rewrite answers 200, writes succeed. -/
def dlEnvAlt : DlEnv :=
  ⟨fun _ u =>
      if u = "h/files/large/a.webp" then .status 404
      else if u = "h/files/a.webp" then .status 200
      else .status 500,
    fun _ => .ok⟩

/-- Witness environment: every fetch succeeds but every copy fails. -/
def dlEnvCopyFail : DlEnv :=
  ⟨fun _ _ => .status 200, fun _ => .copyFail⟩

/-- Witness environment: every fetch succeeds and every write
succeeds. -/
def dlEnvOk : DlEnv :=
  ⟨fun _ _ => .status 200, fun _ => .ok⟩

/-- Counterexample descriptor set: one image whose URL only works
through the `/files/` alternate rewrite. -/
def imagesCex : List PageImage := [⟨1, 1, 1, "h/files/large/a"⟩]

/-- Counterexample environment for the idempotence claim. -/
def dlEnvCex : DlEnv :=
  ⟨fun _ u =>
      if u = "h/files/large/a" then .status 404
      else if u = "h/files/a" then .status 200
      else .status 500,
    fun _ => .ok⟩

/-- Witness capture environment: page 1 captures, page 2 fails in both
passes. -/
def capEnvPartial : CapEnv := ⟨fun p => p == 1, fun _ => false⟩

/-- Witness capture environment: every render fails. -/
def capEnvAllFail : CapEnv := ⟨fun _ => false, fun _ => false⟩

/-- Witness downloaded assets for the assembly claim. -/
def dlAssetsW : List DownloadedImage :=
  [⟨4, 1, 5, "u4", "d4"⟩, ⟨3, 1, 3, "u3a", "d3a"⟩, ⟨3, 2, 4, "u3b", "d3b"⟩]

/-- Witness captured assets for the assembly claim. -/
def capAssetsW : List InteractivePageImage := [⟨3, 3, "c3u", "c3"⟩]

/-! ## General helper lemmas -/

theorem toList_append (s t : String) : (s ++ t).toList = s.toList ++ t.toList := by
  simp [String.toList]

theorem hasPre_append (p a b : String) (h : hasPre a p = true) :
    hasPre (a ++ b) p = true := by
  unfold hasPre at *
  rw [toList_append, List.isPrefixOf_iff_prefix] at *
  exact h.trans (List.prefix_append _ _)

/-! ## Claim C6: manifest image-field normalization -/

/-- Claim C6: a single-string image field and a list-of-strings image
field both normalize to a list of absolute URLs; each filename has a
leading `./` stripped; a filename already beginning with `files/` is
appended verbatim to the publication root (never double-prefixed); any
other filename gets `files/large/` inserted before it. -/
theorem c6_manifest_image_normalization (id s img : String) (l : List String) :
    normalizeImages id (ImagesField.one s) = [normalizeImage id s] ∧
    normalizeImages id (ImagesField.arr (l.map JsonVal.str)) =
      l.map (normalizeImage id) ∧
    hasPre (normalizeImage id img) "https://" = true ∧
    (hasPre (trimPre img "./") "files/" = true →
      normalizeImage id img =
        "https://online.fliphtml5.com/" ++ id ++ "/" ++ trimPre img "./") ∧
    (hasPre (trimPre img "./") "files/" = false →
      normalizeImage id img =
        "https://online.fliphtml5.com/" ++ id ++ "/files/large/" ++ trimPre img "./") := by
  have h4 : hasPre (trimPre img "./") "files/" = true →
      normalizeImage id img =
        "https://online.fliphtml5.com/" ++ id ++ "/" ++ trimPre img "./" := by
    intro h; unfold normalizeImage; rw [if_pos h]
  have h5 : hasPre (trimPre img "./") "files/" = false →
      normalizeImage id img =
        "https://online.fliphtml5.com/" ++ id ++ "/files/large/" ++ trimPre img "./" := by
    intro h; unfold normalizeImage; rw [if_neg (by simp [h])]
  refine ⟨rfl, ?_, ?_, h4, h5⟩
  · simp only [normalizeImages, List.filterMap_map]
    exact congrFun (List.filterMap_eq_map _) l
  · have hbase : hasPre "https://online.fliphtml5.com/" "https://" = true := by decide
    by_cases h : hasPre (trimPre img "./") "files/" = true
    · rw [h4 h]
      exact hasPre_append _ _ _ (hasPre_append _ _ _ (hasPre_append _ _ _ hbase))
    · rw [h5 (by simpa using h)]
      exact hasPre_append _ _ _ (hasPre_append _ _ _ (hasPre_append _ _ _ hbase))

/-- Witness for C6 at concrete inputs. -/
theorem c6_witness :
    normalizeImages "abc" (ImagesField.one "p1.jpg") = [normalizeImage "abc" "p1.jpg"] ∧
    normalizeImage "abc" "files/p1.jpg" = "https://online.fliphtml5.com/abc/files/p1.jpg" ∧
    normalizeImage "abc" "./p1.jpg" = "https://online.fliphtml5.com/abc/files/large/p1.jpg" := by
  refine ⟨(c6_manifest_image_normalization "abc" "p1.jpg" "x" []).1, ?_, ?_⟩
  · exact ((c6_manifest_image_normalization "abc" "x" "files/p1.jpg" []).2.2.2.1
      (by decide)).trans (by decide)
  · exact ((c6_manifest_image_normalization "abc" "x" "./p1.jpg" []).2.2.2.2
      (by decide)).trans (by decide)

/-! ## Claim C2: spread capture record aliasing -/

/-- Claim C2: a capture of an even page `n` with `2 ≤ n` yields the
record for `n` and, exactly when `n < pageCount`, an additional record
for `n+1` sharing `n`'s file path; a capture of page 1 or of an odd
page yields a single record. -/
theorem c2_spread_records (base root : String) (pc n : Nat) :
    (2 ≤ n → n % 2 = 0 → n < pc →
      captureRecords base root pc n =
        [⟨n, n, captureUrl base n, capturePath root n⟩,
         ⟨n + 1, n + 1, captureUrl base (n + 1), capturePath root n⟩]) ∧
    (2 ≤ n → n % 2 = 0 → pc ≤ n →
      captureRecords base root pc n =
        [⟨n, n, captureUrl base n, capturePath root n⟩]) ∧
    (n % 2 = 1 →
      captureRecords base root pc n =
        [⟨n, n, captureUrl base n, capturePath root n⟩]) := by
  refine ⟨fun h2 he hlt => ?_, fun h2 he hge => ?_, fun ho => ?_⟩
  · unfold captureRecords
    rw [if_pos ⟨by omega, he, hlt⟩]
    rfl
  · unfold captureRecords
    rw [if_neg (by omega)]
  · unfold captureRecords
    rw [if_neg (by omega)]

/-- Witness for C2: with 7 pages, page 4 aliases page 5, page 6
aliases page 7 (the final page), and page 1 stands alone. -/
theorem c2_witness :
    captureRecords "b" "r" 7 4 =
      [⟨4, 4, "b#p=4", "r/interactive-4.png"⟩,
       ⟨5, 5, "b#p=5", "r/interactive-4.png"⟩] ∧
    captureRecords "b" "r" 7 6 =
      [⟨6, 6, "b#p=6", "r/interactive-6.png"⟩,
       ⟨7, 7, "b#p=7", "r/interactive-6.png"⟩] ∧
    captureRecords "b" "r" 7 1 = [⟨1, 1, "b#p=1", "r/interactive-1.png"⟩] := by
  refine ⟨?_, ?_, ?_⟩
  · exact ((c2_spread_records "b" "r" 7 4).1 (by decide) (by decide)
      (by decide)).trans (by decide)
  · exact ((c2_spread_records "b" "r" 7 6).1 (by decide) (by decide)
      (by decide)).trans (by decide)
  · exact ((c2_spread_records "b" "r" 7 1).2.2 (by decide)).trans (by decide)

/-! ## Claim C8: dense global sequence numbers -/

theorem pageImagesAux_order (pageNum : Nat) :
    ∀ (us : List String) (imgNum order : Nat),
      (pageImagesAux pageNum imgNum order us).map (fun i => i.overallOrder) =
        List.range' order us.length := by
  intro us
  induction us with
  | nil => intro imgNum order; rfl
  | cons u us ih =>
    intro imgNum order
    simp only [pageImagesAux, List.map_cons, List.length_cons, List.range'_succ, ih]

theorem findAllImagesAux_order :
    ∀ (ps : List Page) (pageIdx order : Nat),
      (findAllImagesAux pageIdx order ps).map (fun i => i.overallOrder) =
        List.range' order (totalImages ps) := by
  intro ps
  induction ps with
  | nil => intro pageIdx order; rfl
  | cons p ps ih =>
    intro pageIdx order
    rw [show totalImages (p :: ps) = p.imageUrls.length + totalImages ps from by
      simp [totalImages]]
    simp only [findAllImagesAux, List.map_append, pageImagesAux_order, ih]
    have hr := List.range'_append order p.imageUrls.length (totalImages ps) 1
    simp only [one_mul] at hr
    rw [hr]
    congr 1
    omega

/-- Claim C8: flattening a book's pages' image URLs assigns overall
orders that are exactly `1, 2, ..., N` and strictly increasing in list
order. -/
theorem c8_overall_order_dense (b : Book) :
    (FindAllImages b).map (fun i => i.overallOrder) =
      List.range' 1 (FindAllImages b).length ∧
    List.Pairwise (· < ·) ((FindAllImages b).map (fun i => i.overallOrder)) := by
  have h := findAllImagesAux_order b.pages 1 1
  have hlen : (findAllImagesAux 1 1 b.pages).length = totalImages b.pages := by
    have h2 := congrArg List.length h
    simpa using h2
  constructor
  · rw [FindAllImages, h, hlen]
  · rw [FindAllImages, h]
    exact List.pairwise_lt_range' _ _

/-! ## Claim C9: the 1000-image cap -/

/-- Claim C9: when the flattened image list exceeds 1000 entries, only
the first 1000 descriptors (exactly those with global order up to
1000) are passed on to the download phase, with a warning; no image
with global order above 1000 is passed on. -/
theorem c9_image_cap (b : Book) (h : (FindAllImages b).length > 1000) :
    capImages (FindAllImages b) = (FindAllImages b).take 1000 ∧
    capImagesWarns (FindAllImages b) = true ∧
    (∀ i ∈ capImages (FindAllImages b), i.overallOrder ≤ 1000) ∧
    (∀ i ∈ FindAllImages b, 1000 < i.overallOrder →
      i ∉ capImages (FindAllImages b)) := by
  have horders := findAllImagesAux_order b.pages 1 1
  have hlen : (FindAllImages b).length = totalImages b.pages := by
    have h2 := congrArg List.length horders
    simpa [FindAllImages] using h2
  have hcap : capImages (FindAllImages b) = (FindAllImages b).take 1000 := by
    unfold capImages; rw [if_pos h]
  have hws : capImagesWarns (FindAllImages b) = true := by
    unfold capImagesWarns; simpa using h
  have htake : ((FindAllImages b).take 1000).map (fun i => i.overallOrder) =
      List.range' 1 1000 := by
    rw [List.map_take, FindAllImages, horders]
    have hsplit := List.range'_append 1 1000 (totalImages b.pages - 1000) 1
    simp only [one_mul] at hsplit
    have heq : totalImages b.pages = (totalImages b.pages - 1000) + 1000 := by omega
    rw [heq, ← hsplit]
    exact List.take_left' (List.length_range' _ _ _)
  have horder : ∀ i ∈ capImages (FindAllImages b), i.overallOrder ≤ 1000 := by
    intro i hi
    rw [hcap] at hi
    have hmem : i.overallOrder ∈
        ((FindAllImages b).take 1000).map (fun i => i.overallOrder) :=
      List.mem_map.2 ⟨i, hi, rfl⟩
    rw [htake] at hmem
    have hb := List.mem_range'_1.1 hmem
    omega
  exact ⟨hcap, hws, horder, fun i _ hgt hmem => absurd (horder i hmem) (by omega)⟩

/-- Witness for C9: a book holding 1001 images. -/
theorem c9_witness :
    (FindAllImages bigBook).length > 1000 ∧
    ∀ i ∈ capImages (FindAllImages bigBook), i.overallOrder ≤ 1000 := by
  have horders := findAllImagesAux_order bigBook.pages 1 1
  have hlen : (FindAllImages bigBook).length = totalImages bigBook.pages := by
    have h2 := congrArg List.length horders
    simpa [FindAllImages] using h2
  have htot : totalImages bigBook.pages = 1001 := by
    unfold bigBook totalImages
    simp only [List.map_cons, List.map_nil, List.sum_cons, List.sum_nil,
      List.length_replicate, Nat.add_zero]
  have h : (FindAllImages bigBook).length > 1000 := by omega
  exact ⟨h, (c9_image_cap bigBook h).2.2.1⟩

/-! ## Claim C7: identifier resolution -/

theorem takeWhile_append_all {p : Char → Bool} :
    ∀ (w t : List Char), (∀ c ∈ w, p c = true) →
      (w ++ t).takeWhile p = w ++ t.takeWhile p
  | [], _, _ => rfl
  | c :: cs, t, h => by
    rw [List.cons_append, List.takeWhile_cons_of_pos (h c (List.mem_cons_self c cs)),
      takeWhile_append_all cs t fun x hx => h x (List.mem_cons_of_mem c hx)]
    rfl

theorem dropWhile_append_all {p : Char → Bool} :
    ∀ (w t : List Char), (∀ c ∈ w, p c = true) →
      (w ++ t).dropWhile p = t.dropWhile p
  | [], _, _ => rfl
  | c :: cs, t, h => by
    rw [List.cons_append, List.dropWhile_cons_of_pos (h c (List.mem_cons_self c cs)),
      dropWhile_append_all cs t fun x hx => h x (List.mem_cons_of_mem c hx)]

theorem dropWhile_head_not {p : Char → Bool} :
    ∀ l : List Char, l.dropWhile p = [] ∨
      ∃ c cs, l.dropWhile p = c :: cs ∧ p c = false
  | [] => Or.inl rfl
  | c :: cs => by
    by_cases h : p c = true
    · rw [List.dropWhile_cons_of_pos h]
      exact dropWhile_head_not cs
    · rw [List.dropWhile_cons_of_neg h]
      exact Or.inr ⟨c, cs, rfl, by simpa using h⟩

theorem regexMatchId_some_iff (s id : String) :
    regexMatchId s = some id ↔ IsIdPrefix s id := by
  unfold regexMatchId
  rw [List.span_eq_take_drop]
  constructor
  · intro h
    simp only at h
    split at h
    · exact absurd h (by simp)
    · rename_i hne
      split at h
      · rename_i r2 hr2
        split at h
        · exact absurd h (by simp)
        · rename_i hw2ne
          injection h with h
          refine ⟨s.toList.takeWhile isWordChar, r2.takeWhile isWordChar,
            r2.dropWhile isWordChar, ?_, ?_, ?_, ?_, ?_, ?_, h.symm⟩
          · conv_lhs => rw [← List.takeWhile_append_dropWhile isWordChar s.toList]
            rw [hr2, List.takeWhile_append_dropWhile]
          · intro hnil
            rw [hnil] at hne
            exact hne rfl
          · intro hnil
            rw [hnil] at hw2ne
            exact hw2ne rfl
          · exact fun c hc => List.mem_takeWhile_imp hc
          · exact fun c hc => List.mem_takeWhile_imp hc
          · rcases dropWhile_head_not r2 with hd | ⟨c, cs, hd, hc⟩
            · exact Or.inl hd
            · exact Or.inr ⟨c, cs, hd, by simp [hc]⟩
      · rename_i hr1
        exact absurd h (by simp)
  · rintro ⟨w1, w2, rest, hs, h1, h2, hw1, hw2, hrest, hid⟩
    have hslash : isWordChar '/' = false := by decide
    have htw : s.toList.takeWhile isWordChar = w1 := by
      rw [hs, takeWhile_append_all w1 _ hw1,
        List.takeWhile_cons_of_neg (by simp [hslash]), List.append_nil]
    have hdw : s.toList.dropWhile isWordChar = '/' :: (w2 ++ rest) := by
      rw [hs, dropWhile_append_all w1 _ hw1,
        List.dropWhile_cons_of_neg (by simp [hslash])]
    have htw2 : (w2 ++ rest).takeWhile isWordChar = w2 := by
      rw [takeWhile_append_all w2 _ hw2]
      rcases hrest with hnil | ⟨c, cs, hcons, hc⟩
      · rw [hnil]; simp
      · rw [hcons, List.takeWhile_cons_of_neg (by simpa using hc), List.append_nil]
    simp only [htw, hdw, htw2]
    rw [if_neg (by simp [List.isEmpty_iff, h1])]
    rw [if_neg (by simp [List.isEmpty_iff, h2]), hid]

/-- Claim C7 (amended): resolution succeeds with id `w1/w2` exactly
when the two-word-segment pattern matches a prefix of the raw input
(trailing characters are ignored), or, failing that, the input parses
as a URL with non-empty host and the pattern matches a prefix of the
slash-trimmed path; the three spec examples behave as stated.  Go's
`url.Parse` is an oracle parameter. -/
theorem c7_resolution (urlParse : String → Option UrlParts) (s : String) :
    (∀ id, ParseId urlParse s = some id ↔
      IsIdPrefix s id ∨
      (regexMatchId s = none ∧ ∃ u, urlParse s = some u ∧ u.host ≠ "" ∧
        IsIdPrefix (trimSlashes u.path) id)) ∧
    ParseId urlParse "abcde/fg123" = some "abcde/fg123" ∧
    (urlParse "https://host/abcde/fg123/extra" =
        some ⟨"host", "/abcde/fg123/extra"⟩ →
      ParseId urlParse "https://host/abcde/fg123/extra" = some "abcde/fg123") ∧
    ((urlParse "not-an-id" = none ∨
        ∃ u, urlParse "not-an-id" = some u ∧ u.host = "") →
      ParseId urlParse "not-an-id" = none) := by
  refine ⟨fun id => ?_, ?_, fun hu => ?_, fun hu => ?_⟩
  · unfold ParseId
    cases hr : regexMatchId s with
    | some id0 =>
      simp only []
      constructor
      · intro h
        injection h with h
        exact Or.inl ((regexMatchId_some_iff s id).1 (h ▸ hr))
      · rintro (hp | ⟨hnone, _⟩)
        · have h2 := (regexMatchId_some_iff s id).2 hp
          rw [h2] at hr
          injection hr with hr
          exact congrArg some hr.symm
        · exact absurd hnone (by simp)
    | none =>
      simp only []
      cases hup : urlParse s with
      | none =>
        simp only []
        constructor
        · intro h
          exact absurd h (by simp)
        · rintro (hp | ⟨_, u, hu2, _⟩)
          · rw [(regexMatchId_some_iff s id).2 hp] at hr
            exact absurd hr (by simp)
          · exact absurd hu2 (by simp)
      | some u =>
        simp only []
        by_cases hh : u.host = ""
        · rw [if_neg (by simpa using hh)]
          constructor
          · intro h
            exact absurd h (by simp)
          · rintro (hp | ⟨_, u2, hu2, hh2, _⟩)
            · rw [(regexMatchId_some_iff s id).2 hp] at hr
              exact absurd hr (by simp)
            · injection hu2 with hu2
              exact absurd (hu2 ▸ hh) hh2
        · rw [if_pos hh]
          rw [regexMatchId_some_iff]
          constructor
          · intro h
            exact Or.inr ⟨by trivial, u, rfl, hh, h⟩
          · rintro (hp | ⟨_, u2, hu2, _, hp2⟩)
            · rw [(regexMatchId_some_iff s id).2 hp] at hr
              exact absurd hr (by simp)
            · injection hu2 with hu2
              rw [hu2]
              exact hp2
  · have hr : regexMatchId "abcde/fg123" = some "abcde/fg123" := by decide
    unfold ParseId
    rw [hr]
  · have hr : regexMatchId "https://host/abcde/fg123/extra" = none := by decide
    unfold ParseId
    rw [hr, hu]
    simp only []
    rw [if_pos (by decide)]
    decide
  · have hr : regexMatchId "not-an-id" = none := by decide
    unfold ParseId
    rw [hr]
    rcases hu with hn | ⟨u, hsome, hh⟩
    · rw [hn]
    · rw [hsome]
      simp only []
      rw [if_neg (by simp [hh])]

/-- Counterexample for C7 as stated: `ab/cd!junk` is neither a raw
identifier matching the full two-word-segment pattern nor (under this
oracle) a URL, yet resolution succeeds with `ab/cd`. -/
theorem c7_counterexample :
    ParseId (fun _ => none) "ab/cd!junk" = some "ab/cd" ∧
    isTwoSegmentId "ab/cd!junk" = false := by decide

/-- Witness for C7 under a concrete `url.Parse` oracle. -/
theorem c7_witness :
    ParseId urlParseW "abcde/fg123" = some "abcde/fg123" ∧
    ParseId urlParseW "https://host/abcde/fg123/extra" = some "abcde/fg123" ∧
    ParseId urlParseW "not-an-id" = none := by
  refine ⟨(c7_resolution urlParseW "x").2.1, ?_, ?_⟩
  · exact (c7_resolution urlParseW "x").2.2.1 (by decide)
  · exact (c7_resolution urlParseW "x").2.2.2
      (Or.inr ⟨⟨"", "not-an-id"⟩, by decide, rfl⟩)

/-! ## Claim C1: assembly -/

theorem lastPathFor_cons (kv : Nat × String) (t : List (Nat × String)) (k : Nat) :
    lastPathFor (kv :: t) k =
      (lastPathFor t k).or (if kv.1 = k then some kv.2 else none) := by
  unfold lastPathFor
  rw [List.reverse_cons, List.find?_append]
  cases h : List.find? (fun x => x.1 == k) t.reverse with
  | none =>
    by_cases hk : kv.1 = k
    · simp [List.find?_cons, hk]
    · simp [List.find?_cons, hk]
  | some v => simp [h]

theorem insertAll_at (k : Nat) :
    ∀ (l : List (Nat × String)) (m : Nat → Option String),
      insertAll m l k = (lastPathFor l k).or (m k) := by
  intro l
  induction l with
  | nil => intro m; simp [insertAll, lastPathFor]
  | cons kv t ih =>
    intro m
    rw [show insertAll m (kv :: t) k = insertAll (goMapInsert m kv.1 kv.2) t k from rfl]
    rw [ih, lastPathFor_cons]
    cases h : lastPathFor t k with
    | some v => simp
    | none =>
      simp only [Option.none_or]
      unfold goMapInsert
      by_cases hk : k = kv.1
      · simp [hk]
      · rw [if_neg hk, if_neg (fun hx => hk hx.symm), Option.none_or]

theorem pageMapFun_eq_selectPath (d : List DownloadedImage)
    (c : List InteractivePageImage) (p : Nat) :
    pageMapFun d c p = selectPath d c p := by
  unfold pageMapFun selectPath
  rw [insertAll_at, insertAll_at]
  cases lastPathFor (capturedPairs c) p with
  | some s => simp
  | none => simp

theorem lastPathFor_isSome_iff (pairs : List (Nat × String)) (p : Nat) :
    (lastPathFor pairs p).isSome = true ↔ p ∈ pairs.map Prod.fst := by
  simp only [lastPathFor, Option.isSome_map', List.find?_isSome, List.mem_reverse,
    List.mem_map, beq_iff_eq]

/-- Claim C1: assembly emits exactly one content path per page number
appearing in either asset list — the (last) captured asset's path when
a capture for the page exists, otherwise the last downloaded entry's
path — in strictly ascending page-number order. -/
theorem c1_assembly (d : List DownloadedImage) (c : List InteractivePageImage) :
    assembleImages d c =
      (assemblePages d c).map (fun p => (selectPath d c p).getD "") ∧
    List.Pairwise (· < ·) (assemblePages d c) ∧
    (∀ p, p ∈ assemblePages d c ↔
      p ∈ d.map (fun a => a.pageNumber) ∨ p ∈ c.map (fun a => a.pageNumber)) ∧
    (∀ p ∈ assemblePages d c, (selectPath d c p).isSome = true) := by
  have hperm := List.perm_insertionSort (· ≤ ·) (pageMapKeys d c)
  have hmem : ∀ p, p ∈ assemblePages d c ↔ p ∈ pageMapKeys d c :=
    fun p => hperm.mem_iff
  have hmemiff : ∀ p, p ∈ assemblePages d c ↔
      p ∈ d.map (fun a => a.pageNumber) ∨ p ∈ c.map (fun a => a.pageNumber) := by
    intro p
    rw [hmem p]
    unfold pageMapKeys
    rw [List.mem_dedup, List.mem_append]
  refine ⟨?_, ?_, hmemiff, ?_⟩
  · unfold assembleImages
    exact List.map_congr_left fun p _ => by rw [pageMapFun_eq_selectPath]
  · have hsorted : List.Sorted (· ≤ ·) (assemblePages d c) :=
      List.sorted_insertionSort _ _
    have hnodup : (assemblePages d c).Nodup :=
      (hperm.nodup_iff).2 (List.nodup_dedup _)
    exact (hsorted.and hnodup).imp fun h => lt_of_le_of_ne h.1 h.2
  · intro p hp
    rcases (hmemiff p).1 hp with hd | hc
    · unfold selectPath
      cases hcap : lastPathFor (capturedPairs c) p with
      | some s => simp
      | none =>
        simp only []
        rw [lastPathFor_isSome_iff]
        unfold downloadedPairs
        rw [List.map_map]
        simpa using hd
    · have hs : (lastPathFor (capturedPairs c) p).isSome = true := by
        rw [lastPathFor_isSome_iff]
        unfold capturedPairs
        rw [List.map_map]
        simpa using hc
      unfold selectPath
      cases hcap : lastPathFor (capturedPairs c) p with
      | some s => simp
      | none => rw [hcap] at hs; simp at hs

/-- Witness for C1: a capture for page 3 overrides both downloaded
entries for page 3, page 4 keeps its downloaded path, and paths come
out in ascending page order. -/
theorem c1_witness :
    assembleImages dlAssetsW capAssetsW = ["c3", "d4"] ∧
    (selectPath dlAssetsW capAssetsW 3).isSome = true := by
  refine ⟨?_, (c1_assembly dlAssetsW capAssetsW).2.2.2 3 (by decide)⟩
  exact ((c1_assembly dlAssetsW capAssetsW).1).trans (by decide)

/-! ## Claim C4: capture-phase error policy -/

/-- Claim C4: the capture phase errors exactly when zero pages were
ever captured (including via existing files); otherwise it succeeds,
returning every captured asset, and every page that failed both passes
is surfaced in the failure reports. -/
theorem c4_capture_error_policy (base root : String) (pc : Nat) (env : CapEnv) :
    ((captureInteractivePages base root pc env).result = none ↔
      primaryCaptured base root pc env = []) ∧
    (∀ r, (captureInteractivePages base root pc env).result = some r →
      ∀ a, a ∈ r ↔
        a ∈ primaryCaptured base root pc env ++ retryCaptured base root pc env) ∧
    (∀ p ∈ pagesToCapture pc, env.ok p = false → env.retryOk p = false →
      p ∈ (captureInteractivePages base root pc env).reportedFailed) := by
  simp only [captureInteractivePages]
  by_cases hp : (primaryCaptured base root pc env).isEmpty = true
  · rw [if_pos hp]
    refine ⟨?_, ?_, ?_⟩
    · simp [List.isEmpty_iff.1 hp]
    · intro r hr
      exact absurd hr (by simp)
    · intro p hmem hok _
      exact List.mem_filter.2 ⟨hmem, by simp [hok]⟩
  · rw [if_neg hp]
    have hpne : primaryCaptured base root pc env ≠ [] := by
      simpa [List.isEmpty_iff] using hp
    by_cases hc : 0 < (failedPrimary pc env).length ∧
        (failedPrimary pc env).length < (pagesToCapture pc).length
    · rw [if_pos hc]
      refine ⟨?_, ?_, ?_⟩
      · constructor
        · intro h
          exact absurd h (by simp)
        · intro h
          exact absurd h hpne
      · intro r hr a
        injection hr with hr
        rw [← hr]
        unfold sortCaptured
        exact (List.perm_insertionSort _ _).mem_iff
      · intro p hmem hok _
        exact List.mem_append_left _ (List.mem_filter.2 ⟨hmem, by simp [hok]⟩)
    · rw [if_neg hc]
      refine ⟨?_, ?_, ?_⟩
      · constructor
        · intro h
          exact absurd h (by simp)
        · intro h
          exact absurd h hpne
      · intro r hr a
        injection hr with hr
        rw [← hr]
        have hretry : retryCaptured base root pc env = [] := by
          unfold retryCaptured
          rw [if_neg hc]
        rw [hretry, List.append_nil]
        unfold sortCaptured
        exact (List.perm_insertionSort _ _).mem_iff
      · intro p hmem hok _
        exfalso
        apply hc
        constructor
        · have hpf : p ∈ failedPrimary pc env :=
            List.mem_filter.2 ⟨hmem, by simp [hok]⟩
          exact List.length_pos.2 fun hnil => by simp [hnil] at hpf
        · obtain ⟨b, hb⟩ := List.exists_mem_of_ne_nil _ hpne
          obtain ⟨q, hq, _⟩ := List.mem_flatMap.1 hb
          have hqmem := (List.mem_filter.1 hq).1
          have hqok := (List.mem_filter.1 hq).2
          exact List.length_filter_lt_length_iff_exists.2 ⟨q, hqmem, by simp [hqok]⟩

/-- Witness for C4: with pages `[1, 2]` requested, a run where page 1
captures and page 2 fails both passes succeeds and reports page 2,
while a run where every render fails errors out. -/
theorem c4_witness :
    (captureInteractivePages "b" "r" 3 capEnvPartial).result ≠ none ∧
    2 ∈ (captureInteractivePages "b" "r" 3 capEnvPartial).reportedFailed ∧
    (captureInteractivePages "b" "r" 3 capEnvAllFail).result = none := by
  refine ⟨?_, ?_, ?_⟩
  · intro h
    have h2 := (c4_capture_error_policy "b" "r" 3 capEnvPartial).1.1 h
    exact absurd h2 (by decide)
  · exact (c4_capture_error_policy "b" "r" 3 capEnvPartial).2.2 2
      (by decide) (by decide) (by decide)
  · exact (c4_capture_error_policy "b" "r" 3 capEnvAllFail).1.2 (by decide)

/-! ## Download-loop lemmas -/

theorem runAttempt_failure_clean (env : DlEnv) (a : Nat) (url : String) :
    (runAttempt env a url).isFailure = true →
      (runAttempt env a url).filePresentAfter = false ∧
      ((runAttempt env a url).fileCreated = true →
        (runAttempt env a url).removedPartial = true) := by
  unfold runAttempt
  cases env.fetch a url with
  | transportError => intro _; exact ⟨rfl, by simp⟩
  | status code =>
    simp only []
    by_cases hc : code = 200
    · rw [if_pos hc]
      unfold writePhase
      cases env.write a <;> simp [AttemptOut.isFailure]
    · rw [if_neg hc]
      cases (tryAlternates (env.fetch a) (candidatesFor url)).2 with
      | some alt =>
        unfold writePhase
        cases env.write a <;> simp [AttemptOut.isFailure]
      | none => intro _; exact ⟨rfl, by simp⟩

theorem dlLoop_trace_clean (env : DlEnv) (i : PageImage) (fp : String) :
    ∀ (l : List Nat) (url : String),
      ∀ att ∈ (dlLoop env i fp url l).attemptsTrace,
        att.isFailure = true →
          att.filePresentAfter = false ∧
          (att.fileCreated = true → att.removedPartial = true) := by
  intro l
  induction l with
  | nil => intro url att hmem; simp [dlLoop] at hmem
  | cons a rest ih =>
    intro url att hmem
    simp only [dlLoop] at hmem
    cases h : (runAttempt env a url).step with
    | success u =>
      rw [h] at hmem
      simp only [List.mem_singleton] at hmem
      subst hmem
      exact runAttempt_failure_clean env a url
    | failure u =>
      rw [h] at hmem
      simp only [List.mem_cons] at hmem
      rcases hmem with hmem | hmem
      · subst hmem
        exact runAttempt_failure_clean env a url
      · exact ih u att hmem

theorem dlLoop_attempts_le (env : DlEnv) (i : PageImage) (fp : String) :
    ∀ (l : List Nat) (url : String),
      (dlLoop env i fp url l).attemptsUsed ≤ l.length := by
  intro l
  induction l with
  | nil => intro url; simp [dlLoop]
  | cons a rest ih =>
    intro url
    simp only [dlLoop, List.length_cons]
    cases h : (runAttempt env a url).step with
    | success u => simp
    | failure u =>
      simp only []
      have hrec := ih u
      omega

theorem dlLoop_sleeps (env : DlEnv) (i : PageImage) (fp : String) :
    ∀ (l : List Nat) (url : String),
      (dlLoop env i fp url l).sleeps =
        ((l.take (dlLoop env i fp url l).attemptsUsed).filter
          (fun a => 0 < a)).map (fun a => 2 ^ a) := by
  intro l
  induction l with
  | nil => intro url; simp [dlLoop]
  | cons a rest ih =>
    intro url
    simp only [dlLoop]
    cases h : (runAttempt env a url).step with
    | success u =>
      simp only [List.take_succ_cons, List.take_zero, List.filter_cons]
      by_cases ha : 0 < a <;> simp [ha]
    | failure u =>
      simp only [List.take_succ_cons, List.filter_cons]
      by_cases ha : 0 < a <;> simp [ha, ih u]

theorem dlLoop_none (env : DlEnv) (i : PageImage) (fp : String) :
    ∀ (l : List Nat) (url : String),
      (dlLoop env i fp url l).result = none →
        (dlLoop env i fp url l).attemptsUsed = l.length ∧
        (dlLoop env i fp url l).filePresent = false := by
  intro l
  induction l with
  | nil => intro url _; exact ⟨rfl, rfl⟩
  | cons a rest ih =>
    intro url h
    simp only [dlLoop] at *
    cases hs : (runAttempt env a url).step with
    | success u => rw [hs] at h; exact absurd h (by simp)
    | failure u =>
      rw [hs] at h
      simp only [] at h
      have hrec := ih u h
      simp only [hs, List.length_cons]
      exact ⟨by omega, hrec.2⟩

theorem dlLoop_some (env : DlEnv) (i : PageImage) (fp : String) :
    ∀ (l : List Nat) (url : String) (d : DownloadedImage),
      (dlLoop env i fp url l).result = some d →
        (dlLoop env i fp url l).filePresent = true ∧
        ∃ u, d = ⟨i.pageNumber, i.imageNumber, i.overallOrder, u, fp⟩ := by
  intro l
  induction l with
  | nil => intro url d h; exact absurd h (by simp [dlLoop])
  | cons a rest ih =>
    intro url d h
    simp only [dlLoop] at *
    cases hs : (runAttempt env a url).step with
    | success u =>
      rw [hs] at h
      simp only [Option.some.injEq] at h
      exact ⟨by simp [hs], u, h.symm⟩
    | failure u =>
      rw [hs] at h
      simp only [] at h
      have hrec := ih u d h
      simp only [hs]
      exact hrec

/-! ## Download-phase lemmas -/

theorem downloadItems_length (env : DlEnv) (folder : String) :
    ∀ (images : List PageImage) (fs : List String) (r : List DownloadedImage),
      (downloadItems env folder fs images).result = some r →
      r.length = images.length := by
  intro images
  induction images with
  | nil =>
    intro fs r h
    simp only [downloadItems, Option.some.injEq] at h
    rw [← h]
    rfl
  | cons i rest ih =>
    intro fs r h
    simp only [downloadItems] at h
    by_cases hc : fs.contains (targetPath folder i) = true
    · rw [if_pos hc] at h
      simp only [] at h
      cases ho : (downloadItems env folder fs rest).result with
      | none => rw [ho] at h; exact absurd h (by simp)
      | some l =>
        rw [ho] at h
        simp only [Option.map_some', Option.some.injEq] at h
        rw [← h]
        simp [ih fs l ho]
    · rw [if_neg hc] at h
      cases hd : (Download env i folder false).result with
      | none => rw [hd] at h; exact absurd h (by simp)
      | some a =>
        rw [hd] at h
        simp only [] at h
        cases ho : (downloadItems env folder
            (targetPath folder i :: fs) rest).result with
        | none => rw [ho] at h; exact absurd h (by simp)
        | some l =>
          rw [ho] at h
          simp only [Option.map_some', Option.some.injEq] at h
          rw [← h]
          simp [ih _ l ho]

theorem downloadItems_fs_mono (env : DlEnv) (folder : String) :
    ∀ (images : List PageImage) (fs : List String) (x : String),
      x ∈ fs → x ∈ (downloadItems env folder fs images).fs := by
  intro images
  induction images with
  | nil => intro fs x hx; exact hx
  | cons i rest ih =>
    intro fs x hx
    simp only [downloadItems]
    by_cases hc : fs.contains (targetPath folder i) = true
    · rw [if_pos hc]
      exact ih fs x hx
    · rw [if_neg hc]
      cases hd : (Download env i folder false).result with
      | none => exact hx
      | some a => exact ih _ x (List.mem_cons_of_mem _ hx)

theorem downloadItems_targets_present (env : DlEnv) (folder : String) :
    ∀ (images : List PageImage) (fs : List String),
      (downloadItems env folder fs images).result.isSome = true →
      ∀ i ∈ images, targetPath folder i ∈ (downloadItems env folder fs images).fs := by
  intro images
  induction images with
  | nil => intro fs _ i hi; exact absurd hi (by simp)
  | cons j rest ih =>
    intro fs h i hi
    simp only [downloadItems] at *
    by_cases hc : fs.contains (targetPath folder j) = true
    · rw [if_pos hc] at *
      rcases List.mem_cons.1 hi with he | hm
      · subst he
        exact downloadItems_fs_mono env folder rest fs _ (by simpa using hc)
      · exact ih fs (by simpa using h) i hm
    · rw [if_neg hc] at *
      cases hd : (Download env j folder false).result with
      | none => rw [hd] at h; simp at h
      | some a =>
        rw [hd] at h
        simp only [] at h
        rcases List.mem_cons.1 hi with he | hm
        · subst he
          exact downloadItems_fs_mono env folder rest _ _ (List.mem_cons_self _ _)
        · exact ih _ (by simpa using h) i hm

theorem downloadItems_all_present (env : DlEnv) (folder : String) :
    ∀ (images : List PageImage) (fs : List String),
      (∀ i ∈ images, fs.contains (targetPath folder i) = true) →
      downloadItems env folder fs images =
        ⟨some (images.map (synthAsset folder)), [], fs⟩ := by
  intro images
  induction images with
  | nil => intro fs _; rfl
  | cons i rest ih =>
    intro fs h
    simp only [downloadItems]
    rw [if_pos (h i (List.mem_cons_self i rest))]
    rw [ih fs fun j hj => h j (List.mem_cons_of_mem i hj)]
    rfl

theorem downloadItems_strip (env : DlEnv) (folder : String) :
    ∀ (images : List PageImage) (fs : List String) (r : List DownloadedImage),
      (downloadItems env folder fs images).result = some r →
      r.map stripUrl = (images.map (synthAsset folder)).map stripUrl := by
  intro images
  induction images with
  | nil =>
    intro fs r h
    simp only [downloadItems, Option.some.injEq] at h
    rw [← h]
    rfl
  | cons i rest ih =>
    intro fs r h
    simp only [downloadItems] at h
    by_cases hc : fs.contains (targetPath folder i) = true
    · rw [if_pos hc] at h
      simp only [] at h
      cases ho : (downloadItems env folder fs rest).result with
      | none => rw [ho] at h; exact absurd h (by simp)
      | some l =>
        rw [ho] at h
        simp only [Option.map_some', Option.some.injEq] at h
        rw [← h]
        simp only [List.map_cons]
        rw [ih fs l ho]
    · rw [if_neg hc] at h
      cases hd : (Download env i folder false).result with
      | none => rw [hd] at h; exact absurd h (by simp)
      | some a =>
        rw [hd] at h
        simp only [] at h
        cases ho : (downloadItems env folder
            (targetPath folder i :: fs) rest).result with
        | none => rw [ho] at h; exact absurd h (by simp)
        | some l =>
          rw [ho] at h
          simp only [Option.map_some', Option.some.injEq] at h
          rw [← h]
          simp only [List.map_cons]
          rw [ih _ l ho]
          obtain ⟨_, u, ha⟩ := dlLoop_some env i (targetPath folder i) [0, 1, 2] i.url a hd
          rw [ha]
          rfl

theorem map_stripUrl_orderedInsert (a : DownloadedImage) :
    ∀ l : List DownloadedImage,
      (List.orderedInsert (fun x y => x.overallOrder ≤ y.overallOrder) a l).map
        stripUrl =
      List.orderedInsert (fun x y => x.2.2.1 ≤ y.2.2.1) (stripUrl a)
        (l.map stripUrl)
  | [] => rfl
  | b :: t => by
    simp only [List.orderedInsert, List.map_cons]
    by_cases h : a.overallOrder ≤ b.overallOrder
    · rw [if_pos h, if_pos (show (stripUrl a).2.2.1 ≤ (stripUrl b).2.2.1 from h)]
      simp
    · rw [if_neg h, if_neg (show ¬(stripUrl a).2.2.1 ≤ (stripUrl b).2.2.1 from h)]
      simp only [List.map_cons, List.cons.injEq, true_and]
      exact map_stripUrl_orderedInsert a t

theorem map_stripUrl_sort (l : List DownloadedImage) :
    (sortDownloaded l).map stripUrl =
      List.insertionSort (fun x y => x.2.2.1 ≤ y.2.2.1) (l.map stripUrl) := by
  unfold sortDownloaded
  induction l with
  | nil => rfl
  | cons a t ih =>
    simp only [List.insertionSort, List.map_cons, ih, map_stripUrl_orderedInsert]

theorem Download_false (env : DlEnv) (i : PageImage) (folder : String) :
    Download env i folder false =
      dlLoop env i (targetPath folder i) i.url [0, 1, 2] := rfl

theorem downloadImages_length (env : DlEnv) (folder : String)
    (images : List PageImage) (fs : List String) (r : List DownloadedImage)
    (h : (downloadImages env folder images fs).result = some r) :
    r.length = images.length := by
  have h' : (downloadItems env folder fs images).result.map sortDownloaded =
      some r := h
  cases ho : (downloadItems env folder fs images).result with
  | none => rw [ho] at h'; exact absurd h' (by simp)
  | some l =>
    rw [ho] at h'
    simp only [Option.map_some', Option.some.injEq] at h'
    rw [← h']
    rw [show (sortDownloaded l).length = l.length from
      (List.perm_insertionSort _ _).length_eq]
    exact downloadItems_length env folder images fs l ho

/-! ## Claim C3: download retry policy -/

/-- Claim C3: on a fresh target at most 3 attempts run, sleeping
`2^attempt` seconds before each retry; a non-success status triggers
the fixed alternate-URL rewrites within the same attempt and a working
alternate permanently replaces the reported URL; exhausting all
attempts yields an error (never an empty success: a returned asset
always has its file on disk), and an item error fails the whole phase
rather than returning a partial result list. -/
theorem c3_download_retry (env : DlEnv) (i : PageImage) (folder : String) :
    (Download env i folder false).attemptsUsed ≤ 3 ∧
    (Download env i folder false).sleeps =
      ((List.range (Download env i folder false).attemptsUsed).filter
        (fun a => 0 < a)).map (fun a => 2 ^ a) ∧
    ((Download env i folder false).result = none →
      (Download env i folder false).attemptsUsed = 3 ∧
      (Download env i folder false).filePresent = false) ∧
    (∀ d, (Download env i folder false).result = some d →
      (Download env i folder false).filePresent = true ∧
      d.fullPath = targetPath folder i) ∧
    (∀ code alt, env.fetch 0 i.url = FetchRes.status code → code ≠ 200 →
      (tryAlternates (env.fetch 0) (candidatesFor i.url)).2 = some alt →
      env.write 0 = WriteOutcome.ok →
      (Download env i folder false).attemptsUsed = 1 ∧
      (Download env i folder false).result =
        some ⟨i.pageNumber, i.imageNumber, i.overallOrder, alt,
          targetPath folder i⟩) ∧
    (∀ images fs r, (downloadImages env folder images fs).result = some r →
      r.length = images.length) := by
  refine ⟨?_, ?_, ?_, ?_, ?_, ?_⟩
  · rw [Download_false]
    exact dlLoop_attempts_le env i _ [0, 1, 2] i.url
  · rw [Download_false]
    have hu := dlLoop_attempts_le env i (targetPath folder i) [0, 1, 2] i.url
    rw [dlLoop_sleeps env i (targetPath folder i) [0, 1, 2] i.url]
    have htk : ∀ u : Nat, u ≤ 3 → ([0, 1, 2] : List Nat).take u = List.range u := by
      intro u hu2
      rw [show ([0, 1, 2] : List Nat) = List.range 3 from rfl, List.take_range]
      congr 1
      omega
    congr 1
    congr 1
    exact htk _ (by simpa using hu)
  · rw [Download_false]
    intro h
    exact dlLoop_none env i _ [0, 1, 2] i.url h
  · rw [Download_false]
    intro d h
    obtain ⟨hfp, u, hd⟩ := dlLoop_some env i _ [0, 1, 2] i.url d h
    exact ⟨hfp, by rw [hd]⟩
  · intro code alt hf hne htry hw
    rw [Download_false]
    have hatt : runAttempt env 0 i.url =
        ⟨AttemptStep.success alt,
          [i.url] ++ (tryAlternates (env.fetch 0) (candidatesFor i.url)).1,
          true, false, true⟩ := by
      unfold runAttempt
      rw [hf]
      simp only []
      rw [if_neg hne, htry]
      unfold writePhase
      rw [hw]
    constructor
    · simp [dlLoop, hatt]
    · simp [dlLoop, hatt]
  · exact fun images fs r h => downloadImages_length env folder images fs r h

/-- Witness for C3: a 404 on the original URL recovers through the
`/files/` alternate within the first attempt, the alternate becoming
the reported URL. -/
theorem c3_witness :
    (Download dlEnvAlt imgAlt "o" false).attemptsUsed = 1 ∧
    (Download dlEnvAlt imgAlt "o" false).result =
      some ⟨1, 1, 1, "h/files/a.webp", targetPath "o" imgAlt⟩ :=
  (c3_download_retry dlEnvAlt imgAlt "o").2.2.2.2.1 404 "h/files/a.webp"
    (by decide) (by decide) (by decide) (by decide)

/-! ## Claim C10: no partial file survives a failed attempt -/

/-- Claim C10: every failed attempt ends with the target file absent —
in particular a copy/flush/close failure after the file was created
removes the partial file — so a failed run never leaves a file that a
later run's skip-if-exists check would accept. -/
theorem c10_partial_cleanup (env : DlEnv) (i : PageImage) (folder : String) :
    (∀ att ∈ (Download env i folder false).attemptsTrace,
      att.isFailure = true →
        att.filePresentAfter = false ∧
        (att.fileCreated = true → att.removedPartial = true)) ∧
    ((Download env i folder false).result = none →
      (Download env i folder false).filePresent = false) := by
  rw [Download_false]
  exact ⟨dlLoop_trace_clean env i _ [0, 1, 2] i.url,
    fun h => (dlLoop_none env i _ [0, 1, 2] i.url h).2⟩

/-- Witness for C10: with every copy failing, the run errors out with
no file left on disk. -/
theorem c10_witness :
    (Download dlEnvCopyFail imgAlt "o" false).filePresent = false :=
  (c10_partial_cleanup dlEnvCopyFail imgAlt "o").2 (by decide)

/-! ## Claim C5: skip-if-exists and idempotent resume -/

/-- Claim C5 (amended): a descriptor whose target file exists triggers
no request and yields the synthesized asset; a second phase run over
the same descriptors with all outputs present performs zero network
calls and returns the synthesized assets sorted by global order —
identical to the first run in every field except that the reported
source URL reverts to the descriptor's URL where the first run adopted
a working alternate. -/
theorem c5_idempotent_resume (env : DlEnv) (i : PageImage) (folder : String)
    (images : List PageImage) (fs : List String) :
    (Download env i folder true).requests = [] ∧
    (Download env i folder true).result = some (synthAsset folder i) ∧
    (∀ r1, (downloadImages env folder images fs).result = some r1 →
      (downloadImages env folder images
        (downloadImages env folder images fs).fs).requests = [] ∧
      (downloadImages env folder images
          (downloadImages env folder images fs).fs).result =
        some (sortDownloaded (images.map (synthAsset folder))) ∧
      ∀ r2, (downloadImages env folder images
          (downloadImages env folder images fs).fs).result = some r2 →
        r2.map stripUrl = r1.map stripUrl) := by
  refine ⟨rfl, rfl, ?_⟩
  intro r1 h1
  have hfs : (downloadImages env folder images fs).fs =
      (downloadItems env folder fs images).fs := rfl
  have hres1 : (downloadItems env folder fs images).result.isSome = true := by
    cases ho : (downloadItems env folder fs images).result with
    | none =>
      have h1' : (downloadItems env folder fs images).result.map sortDownloaded =
          some r1 := h1
      rw [ho] at h1'
      exact absurd h1' (by simp)
    | some l => simp
  have hall : ∀ j ∈ images,
      ((downloadItems env folder fs images).fs).contains
        (targetPath folder j) = true := by
    intro j hj
    simpa using downloadItems_targets_present env folder images fs hres1 j hj
  have hrun2 := downloadItems_all_present env folder images
    (downloadItems env folder fs images).fs hall
  refine ⟨?_, ?_, ?_⟩
  · show (downloadItems env folder
      (downloadImages env folder images fs).fs images).requests = []
    rw [hfs, hrun2]
  · show (downloadItems env folder
        (downloadImages env folder images fs).fs images).result.map
      sortDownloaded = _
    rw [hfs, hrun2]
    rfl
  · intro r2 h2
    have h2' : (downloadItems env folder
        (downloadImages env folder images fs).fs images).result.map
        sortDownloaded = some r2 := h2
    rw [hfs, hrun2] at h2'
    simp only [Option.map_some', Option.some.injEq] at h2'
    have h1' : (downloadItems env folder fs images).result.map sortDownloaded =
        some r1 := h1
    cases ho : (downloadItems env folder fs images).result with
    | none => rw [ho] at h1'; exact absurd h1' (by simp)
    | some l1 =>
      rw [ho] at h1'
      simp only [Option.map_some', Option.some.injEq] at h1'
      rw [← h2', ← h1']
      rw [map_stripUrl_sort, map_stripUrl_sort]
      rw [downloadItems_strip env folder images fs l1 ho]

/-- Witness for C5: a clean first run followed by a second run over
its file system does no network work and returns the synthesized
assets. -/
theorem c5_witness :
    (Download dlEnvOk imgAlt "o" true).requests = [] ∧
    (downloadImages dlEnvOk "o" [imgAlt]
      ((downloadImages dlEnvOk "o" [imgAlt] []).fs)).requests = [] ∧
    (downloadImages dlEnvOk "o" [imgAlt]
        ((downloadImages dlEnvOk "o" [imgAlt] []).fs)).result =
      some (sortDownloaded ([imgAlt].map (synthAsset "o"))) := by
  have h := c5_idempotent_resume dlEnvOk imgAlt "o" [imgAlt] []
  have h3 := h.2.2 [⟨1, 1, 1, "h/files/large/a.webp", "o/1-1.jpg"⟩] (by decide)
  exact ⟨h.1, h3.1, h3.2.1⟩

/-- Counterexample for C5 as stated: when the first run adopted an
alternate URL, the second run's result is not identical — its asset
reports the descriptor's original URL. -/
theorem c5_counterexample :
    (downloadImages dlEnvCex "o" imagesCex []).result ≠ none ∧
    (downloadImages dlEnvCex "o" imagesCex
      ((downloadImages dlEnvCex "o" imagesCex []).fs)).requests = [] ∧
    (downloadImages dlEnvCex "o" imagesCex
        ((downloadImages dlEnvCex "o" imagesCex []).fs)).result ≠
      (downloadImages dlEnvCex "o" imagesCex []).result := by decide

end Fh5dl

